import Mathlib

/-!
Verification of the `political-party-kit` repository against its
natural-language specification.

The Python sources are shallowly embedded: strings become `List Char`
(`PyStr`), every helper of
`src/political_party_kit/meeting_minutes/whisper_minutes.py` and
`src/political_party_kit/dashboard/__init__.py` that the claims touch is
translated into an executable Lean definition, external network services
(Whisper transcription, GPT summarisation) become oracle functions, and the
Word document becomes a list of paragraph records.  Mutable Python objects
(the `MeetingMetadata` dataclass instance passed to `generate` and
`collect_meeting_metadata`) are modelled with an explicit store of cells so
that the deep-copy discipline of the source is observable.
-/

namespace PPK

/-- Python strings are embedded as lists of characters. -/
abbrev PyStr := List Char

/-- Coerce a Lean string literal into the embedding. -/
def pys (s : String) : PyStr := s.data

/-- Whitespace test used by Python's `str.strip` (ASCII whitespace). -/
def isSpace (c : Char) : Bool := c.isWhitespace

/-- Python `str.lstrip()`. -/
def lstrip (s : PyStr) : PyStr := s.dropWhile isSpace

/-- Python `str.rstrip()`: drop whitespace from the right. -/
def rstrip (s : PyStr) : PyStr := s.rdropWhile isSpace

/-- Python `str.strip()`. -/
def strip (s : PyStr) : PyStr := rstrip (lstrip s)

/-- Python `str.split(sep)` for a one-character separator: keeps empty
pieces, and the empty string yields one empty piece. -/
def pySplitChar (sep : Char) : PyStr → List PyStr
  | [] => [[]]
  | c :: cs =>
      if c = sep then [] :: pySplitChar sep cs
      else
        match pySplitChar sep cs with
        | [] => [[c]]
        | p :: ps => (c :: p) :: ps

/-- Python `sep.join(pieces)`. -/
def pyJoin (sep : PyStr) : List PyStr → PyStr
  | [] => []
  | [s] => s
  | s :: rest => s ++ sep ++ pyJoin sep rest

/-- Truthiness of an optional Python string (`None` and `""` are falsy). -/
def truthy : Option PyStr → Bool
  | none => false
  | some s => !s.isEmpty

/-- Python `a or b` for an optional string `a` and string default `b`. -/
def pyOrOpt (a : Option PyStr) (b : PyStr) : PyStr :=
  match a with
  | some s => if s.isEmpty then b else s
  | none => b

/-- Python `a or b` for plain strings. -/
def pyOrS (a b : PyStr) : PyStr := if a.isEmpty then b else a

/- ### The chunker (`chunk_text` in whisper_minutes.py, lines 176-194) -/

/-- The paragraph list of the chunker:
`[p.strip() for p in text.split("\n") if p.strip()]`. -/
def paragraphsOf (text : PyStr) : List PyStr :=
  ((pySplitChar '\n' text).map strip).filter (fun p => !p.isEmpty)

/-- Loop body of `chunk_text`: fold the stripped paragraphs into chunks,
carrying the current `buffer`. -/
def chunkGo (target_chars : Nat) (buffer : PyStr) : List PyStr → List PyStr
  | [] => if buffer.isEmpty then [] else [buffer]
  | paragraph :: rest =>
      let candidate :=
        if buffer.isEmpty then paragraph else strip (buffer ++ '\n' :: paragraph)
      if candidate.length ≤ target_chars then
        chunkGo target_chars candidate rest
      else
        if buffer.isEmpty then chunkGo target_chars paragraph rest
        else buffer :: chunkGo target_chars paragraph rest

/-- `chunk_text(text, target_chars)`: split text into chunks respecting
paragraph boundaries. -/
def chunk_text (text : PyStr) (target_chars : Nat) : List PyStr :=
  if text.isEmpty then []
  else chunkGo target_chars [] (paragraphsOf text)

/-- The invariant satisfied by every paragraph the chunker works on:
nonempty, fixed by `strip`, and containing no newline. -/
def GoodPara (p : PyStr) : Prop :=
  p ≠ [] ∧ strip p = p ∧ '\n' ∉ p

/- ### MeetingMetadata (whisper_minutes.py, lines 39-144) -/

/-- Default title of the dataclass. -/
def defaultTitel : PyStr := pys "Sitzungsprotokoll"

/-- The `MeetingMetadata` dataclass. `Optional[str]` fields are `Option`,
list fields are lists of embedded strings. -/
structure MeetingMetadata where
  titel : PyStr := defaultTitel
  datum : Option PyStr := none
  ort : Option PyStr := none
  startzeit : Option PyStr := none
  endzeit : Option PyStr := none
  moderation : Option PyStr := none
  protokoll : Option PyStr := none
  teilnehmer : List PyStr := []
  gaeste : List PyStr := []
  agenda : List PyStr := []
  ziele : List PyStr := []
  hinweise : List PyStr := []
deriving DecidableEq

/-- The dictionary payload exchanged by `to_dict` / `from_dict`.  The outer
`Option` on each field records whether the key is present in the dict; for
the scalar optional fields the inner `Option` is the stored value (which
may be Python `None`). -/
structure MetaPayload where
  titel : Option PyStr := none
  datum : Option (Option PyStr) := none
  ort : Option (Option PyStr) := none
  startzeit : Option (Option PyStr) := none
  endzeit : Option (Option PyStr) := none
  moderation : Option (Option PyStr) := none
  protokoll : Option (Option PyStr) := none
  teilnehmer : Option (Option (List PyStr)) := none
  gaeste : Option (Option (List PyStr)) := none
  agenda : Option (Option (List PyStr)) := none
  ziele : Option (Option (List PyStr)) := none
  hinweise : Option (Option (List PyStr)) := none
deriving DecidableEq

/-- `MeetingMetadata.to_dict`. -/
def MeetingMetadata.to_dict (m : MeetingMetadata) : MetaPayload where
  titel := some m.titel
  datum := some m.datum
  ort := some m.ort
  startzeit := some m.startzeit
  endzeit := some m.endzeit
  moderation := some m.moderation
  protokoll := some m.protokoll
  teilnehmer := some (some m.teilnehmer)
  gaeste := some (some m.gaeste)
  agenda := some (some m.agenda)
  ziele := some (some m.ziele)
  hinweise := some (some m.hinweise)

/-- Python `payload.get(key) or None` for a nullable string value. -/
def getOrNone (v : Option (Option PyStr)) : Option PyStr :=
  match v.getD none with
  | some s => if s.isEmpty then none else some s
  | none => none

/-- Python `list(payload.get(key, []) or [])` for a nullable list value. -/
def getListOr (v : Option (Option (List PyStr))) : List PyStr :=
  match v.getD (some []) with
  | some l => l
  | none => []

/-- `MeetingMetadata.from_dict`. -/
def MeetingMetadata.from_dict (payload : MetaPayload) : MeetingMetadata where
  titel := payload.titel.getD defaultTitel
  datum := getOrNone payload.datum
  ort := getOrNone payload.ort
  startzeit := getOrNone payload.startzeit
  endzeit := getOrNone payload.endzeit
  moderation := getOrNone payload.moderation
  protokoll := getOrNone payload.protokoll
  teilnehmer := getListOr payload.teilnehmer
  gaeste := getListOr payload.gaeste
  agenda := getListOr payload.agenda
  ziele := getListOr payload.ziele
  hinweise := getListOr payload.hinweise

/-- `human_join(items)`: trimmed, non-empty names joined by `", "`. -/
def human_join (items : List PyStr) : PyStr :=
  pyJoin (pys ", ")
    ((items.filter (fun i => !i.isEmpty && !(strip i).isEmpty)).map strip)

/-- `parse_semicolon_list(value)` (whisper_minutes.py, lines 154-159). -/
def parse_semicolon_list (value : PyStr) : List PyStr :=
  if value.isEmpty then []
  else ((pySplitChar ';' value).filter (fun i => !(strip i).isEmpty)).map strip

/- ### The Word document writer (`build_docx`, lines 257-322) -/

/-- Paragraph alignment used by the document writer. -/
inductive DocxAlign
  | left
  | center
  | right
deriving DecidableEq

/-- A paragraph of the generated document: its text, whether its run is
bold, the font size in points when one is set, the list style when one is
used, and its alignment. -/
structure DocxPara where
  text : PyStr
  bold : Bool := false
  size : Option Nat := none
  style : Option PyStr := none
  align : DocxAlign := .left
deriving DecidableEq

/-- A plain empty paragraph (`document.add_paragraph("")`). -/
def emptyPara : DocxPara := { text := [] }

/-- The nested helper `add_section_heading`. -/
def add_section_heading (value : PyStr) : DocxPara :=
  { text := value, bold := true, size := some 12 }

/-- `MeetingMetadata.to_docx_header_fields` (lines 88-107). -/
def MeetingMetadata.to_docx_header_fields (m : MeetingMetadata) : List PyStr :=
  (if truthy m.datum then [pys "Datum: " ++ m.datum.getD []] else [])
  ++ (let slot := pyJoin (pys " - ")
        (([m.startzeit, m.endzeit].filterMap id).filter (fun s => !s.isEmpty))
      if slot.isEmpty then [] else [pys "Zeitfenster: " ++ slot])
  ++ (if truthy m.ort then [pys "Ort: " ++ m.ort.getD []] else [])
  ++ (if truthy m.moderation then
        [pys "Moderation: " ++ m.moderation.getD []] else [])
  ++ (if truthy m.protokoll then
        [pys "Protokoll: " ++ m.protokoll.getD []] else [])
  ++ (if m.teilnehmer.isEmpty then []
      else [pys "Teilnehmer: " ++ human_join m.teilnehmer])
  ++ (if m.gaeste.isEmpty then []
      else [pys "Gäste: " ++ human_join m.gaeste])

/-- One iteration of the body loop of `build_docx` (lines 300-316): the
paragraphs appended to the document for a single line of the text. -/
def emitLine (line : PyStr) : List DocxPara :=
  let stripped := strip line
  if List.isPrefixOf ['#'] stripped || List.isPrefixOf ['#', '#'] stripped
      || List.isPrefixOf ['#', '#', '#'] stripped then
    let level := stripped.count '#'
    [{ text := strip (stripped.dropWhile (fun c => c == '#')),
       bold := true,
       size := some (if level = 1 then 14 else 12) }]
  else if List.isSuffixOf [':'] stripped && decide (stripped.length < 120) then
    [{ text := stripped, bold := true }]
  else if List.isPrefixOf ['-'] stripped || List.isPrefixOf ['*'] stripped
      || List.isPrefixOf ['•'] stripped then
    [{ text := strip (stripped.dropWhile
         (fun c => c == '-' || c == '*' || c == '•' || c == ' ')),
       style := some (pys "List Bullet") }]
  else
    [{ text := line }]

/-- The paragraphs of the document other than the body, before the body. -/
def docxHeaderParas (meta : MeetingMetadata) : List DocxPara :=
  [{ text := pyOrS meta.titel defaultTitel, bold := true, size := some 20,
     align := .center }]
  ++ (let sub := meta.to_docx_header_fields
      if sub.isEmpty then []
      else [{ text := pyJoin (pys "  |  ") sub, align := .center }])
  ++ [emptyPara]
  ++ (if meta.agenda.isEmpty then []
      else add_section_heading (pys "Tagesordnung")
        :: meta.agenda.map (fun e => { text := e, style := some (pys "List Number") })
        ++ [emptyPara])
  ++ (if meta.ziele.isEmpty then []
      else add_section_heading (pys "Sitzungsziele")
        :: meta.ziele.map (fun g => { text := g, style := some (pys "List Bullet") })
        ++ [emptyPara])
  ++ (if meta.hinweise.isEmpty then []
      else add_section_heading (pys "Besondere Hinweise")
        :: meta.hinweise.map (fun n => { text := n, style := some (pys "List Bullet") })
        ++ [emptyPara])

/-- The trailing paragraphs after the body (`now` is the formatted
`datetime.now()` timestamp). -/
def docxFooterParas (now : PyStr) : List DocxPara :=
  [emptyPara, { text := pys "Erstellt am " ++ now, align := .right }]

/-- `build_docx(text, out_path, meta)`: the document saved to `out_path`,
as the list of its paragraphs. -/
def build_docx (text : PyStr) (meta : MeetingMetadata) (now : PyStr) :
    List DocxPara :=
  docxHeaderParas meta
  ++ (pySplitChar '\n' text).flatMap emitLine
  ++ docxFooterParas now

/- ### Transcription adapter (`transcribe_audio`, lines 197-213) -/

/-- The external collaborators of the pipeline: the filesystem existence
check, the Whisper transcription service (audio path and language hint to
text), the per-chunk GPT summarisation and the consolidation call. -/
structure Services where
  fsExists : PyStr → Bool
  whisper : PyStr → PyStr → PyStr
  summarize : PyStr → PyStr
  consolidate : List PyStr → MeetingMetadata → PyStr

/-- `transcribe_audio(client, audio_path, language_hint)`: raises
`FileNotFoundError` when the path does not exist, otherwise returns the
text of the external service. -/
def transcribe_audio (fsExists : PyStr → Bool) (whisper : PyStr → PyStr → PyStr)
    (audio_path language_hint : PyStr) : Except PyStr PyStr :=
  if fsExists audio_path then .ok (whisper audio_path language_hint)
  else .error (pys "Audiodatei nicht gefunden: " ++ audio_path)

/- ### Interactive metadata collection (`collect_meeting_metadata`,
lines 325-397), over an explicit store of metadata cells so that the
deep-copy discipline of the source is visible. -/

/-- A store of `MeetingMetadata` objects; a Python reference is an index. -/
structure MetaStore where
  cells : List MeetingMetadata
deriving DecidableEq

def MetaStore.read (σ : MetaStore) (r : Nat) : MeetingMetadata :=
  σ.cells.getD r {}

def MetaStore.write (σ : MetaStore) (r : Nat) (m : MeetingMetadata) :
    MetaStore :=
  ⟨σ.cells.set r m⟩

/-- `copy.deepcopy`: allocate a fresh cell holding the same value. -/
def MetaStore.alloc (σ : MetaStore) (m : MeetingMetadata) : MetaStore × Nat :=
  (⟨σ.cells ++ [m]⟩, σ.cells.length)

/-- The raw console input of one pass through the metadata form: the text
typed at each scalar prompt, the lines typed at each list prompt, and the
confirmation answer. -/
structure CollectRound where
  titel : PyStr := []
  datum : PyStr := []
  startzeit : PyStr := []
  endzeit : PyStr := []
  ort : PyStr := []
  moderation : PyStr := []
  protokoll : PyStr := []
  teilnehmer : List PyStr := []
  gaeste : List PyStr := []
  agenda : List PyStr := []
  ziele : List PyStr := []
  hinweise : List PyStr := []
  confirm : PyStr := []
deriving DecidableEq

/-- `prompt_with_default(prompt, default)`: the stripped input, or the
default when it is empty. -/
def prompt_with_default (rawInput d : PyStr) : PyStr :=
  let value := strip rawInput
  if value.isEmpty then d else value

/-- `prompt_list(prompt, default)`: the stripped input lines up to the
first blank one; the default when none were entered. -/
def prompt_list (rawInputs : List PyStr) (d : List PyStr) : List PyStr :=
  let entries := (rawInputs.map strip).takeWhile (fun s => !s.isEmpty)
  if entries.isEmpty then d else entries

/-- Membership of the confirmation answer in `("", "j", "ja", "y", "yes")`
after strip and lower. -/
def confirmOk (rawInput : PyStr) : Bool :=
  let confirm := (strip rawInput).map Char.toLower
  confirm == [] || confirm == ['j'] || confirm == ['j', 'a']
    || confirm == ['y'] || confirm == ['y', 'e', 's']

/-- The field updates of one pass through the form (`nowDate` is the
formatted `datetime.now()` date used as default). -/
def applyRound (nowDate : PyStr) (m : MeetingMetadata) (r : CollectRound) :
    MeetingMetadata where
  titel := prompt_with_default r.titel (pyOrS m.titel defaultTitel)
  datum := some (prompt_with_default r.datum (pyOrOpt m.datum nowDate))
  startzeit := some (prompt_with_default r.startzeit (pyOrOpt m.startzeit []))
  endzeit := some (prompt_with_default r.endzeit (pyOrOpt m.endzeit []))
  ort := some (prompt_with_default r.ort (pyOrOpt m.ort []))
  moderation := some (prompt_with_default r.moderation (pyOrOpt m.moderation []))
  protokoll := some (prompt_with_default r.protokoll (pyOrOpt m.protokoll []))
  teilnehmer := prompt_list r.teilnehmer m.teilnehmer
  gaeste := prompt_list r.gaeste m.gaeste
  agenda := prompt_list r.agenda m.agenda
  ziele := prompt_list r.ziele m.ziele
  hinweise := prompt_list r.hinweise m.hinweise

/-- The `while True` loop of `collect_meeting_metadata`, driven by the list
of console rounds (the Python loop blocks forever without a confirming
round; the model stops when the input is exhausted). -/
def collectGo (nowDate : PyStr) (σ : MetaStore) (ref : Nat) :
    List CollectRound → MetaStore × Nat
  | [] => (σ, ref)
  | r :: rest =>
      let σ' := σ.write ref (applyRound nowDate (σ.read ref) r)
      if confirmOk r.confirm then (σ', ref)
      else collectGo nowDate σ' ref rest

/-- `collect_meeting_metadata(base_meta)`: deep-copies the argument and
edits only the copy. -/
def collect_meeting_metadata (nowDate : PyStr) (σ : MetaStore) (base : Nat)
    (rounds : List CollectRound) : MetaStore × Nat :=
  let (σ1, fresh) := σ.alloc (σ.read base)
  collectGo nowDate σ1 fresh rounds

/- ### The pipeline (`MeetingMinutesGenerator.generate`, lines 400-450) -/

/-- The observable outcome of a successful `generate` run. -/
structure GenerateResult where
  transcript : PyStr
  chunks : List PyStr
  partials : List PyStr
  consolidationInput : List PyStr
  final_minutes : PyStr
  document : List DocxPara
  returnedPath : PyStr
deriving DecidableEq

/-- `MeetingMinutesGenerator.generate`: deep-copy the metadata, optionally
run the interactive form, transcribe, chunk, summarise chunk by chunk
(the `partials` field is `partial_summaries` in the source), consolidate
and write the document.  `nowDate` and `nowStamp` stand for the values of
`datetime.now()` read by the form and by `build_docx`. -/
def MeetingMinutesGenerator.generate (svc : Services) (nowDate nowStamp : PyStr)
    (σ : MetaStore) (metadataRef : Nat) (audio_path output_path : PyStr)
    (language_hint : PyStr) (prompt_for_metadata : Bool)
    (rounds : List CollectRound) : MetaStore × Except PyStr GenerateResult :=
  let a := σ.alloc (σ.read metadataRef)
  let s2 := if prompt_for_metadata
    then collect_meeting_metadata nowDate a.1 a.2 rounds
    else a
  let meta := s2.1.read s2.2
  match transcribe_audio svc.fsExists svc.whisper audio_path language_hint with
  | .error e => (s2.1, .error e)
  | .ok raw =>
      let transcript := strip raw
      let chunks := chunk_text transcript 7000
      let summaries := chunks.map svc.summarize
      let consolidationInput :=
        if summaries.isEmpty then [transcript] else summaries
      let final_minutes := svc.consolidate consolidationInput meta
      (s2.1, .ok
        { transcript := transcript
          chunks := chunks
          partials := summaries
          consolidationInput := consolidationInput
          final_minutes := final_minutes
          document := build_docx final_minutes meta nowStamp
          returnedPath := output_path })

/-- The metadata value the pipeline reads after the deep copy and the
optional interactive form (lines 421-423 of the source). -/
def generateMeta (nowDate : PyStr) (σ : MetaStore) (metadataRef : Nat)
    (prompt_for_metadata : Bool) (rounds : List CollectRound) :
    MeetingMetadata :=
  let a := σ.alloc (σ.read metadataRef)
  let s2 := if prompt_for_metadata
    then collect_meeting_metadata nowDate a.1 a.2 rounds
    else a
  s2.1.read s2.2

/-- Deterministic stand-in services used to evaluate the pipeline
theorems on concrete runs. -/
def stubServices : Services where
  fsExists := fun _ => true
  whisper := fun _ _ => [' ', 'h', 'i']
  summarize := fun s => s
  consolidate := fun l _ => l.flatten

/-- Stand-in services whose transcription result is whitespace only. -/
def blankServices : Services where
  fsExists := fun _ => true
  whisper := fun _ _ => [' ']
  summarize := fun s => s
  consolidate := fun l _ => l.flatten

/- ### Dashboard rendering (`dashboard/__init__.py`) -/

/-- The `ModuleEntry` dataclass of the dashboard. -/
structure ModuleEntry where
  name : PyStr
  description : PyStr
  command : PyStr
  documentation : Option PyStr := none
deriving DecidableEq

/-- `default_modules()`: the built-in module list. -/
def default_modules : List ModuleEntry :=
  [{ name := pys "Sitzungsprotokolle"
     description := pys "Erstellt aus Audioaufnahmen automatisch strukturierte Sitzungsprotokolle mithilfe von Whisper und GPT."
     command := pys "python -m political_party_kit.meeting_minutes"
     documentation := some (pys "README.md#meeting-minutes-module") }]

/-- Markup of the documentation link of a card. -/
def doc_link_html (d : PyStr) : PyStr :=
  pys "<a class=\"button\" href=\"" ++ d ++ pys "\">Dokumentation</a>"

/-- Markup of the command of a card. -/
def command_html (command : PyStr) : PyStr :=
  pys "<code>" ++ command ++ pys "</code>"

/-- The template text of a card before the title. -/
def cardA : PyStr := pys "\n      <article>\n        <h2>"

/-- The template text of a card between title and description. -/
def cardB : PyStr := pys "</h2>\n        <p>"

/-- The template text of a card between description and actions. -/
def cardC : PyStr := pys "</p>\n        <div class=\"actions\">"

/-- The template text of a card after the actions. -/
def cardD : PyStr := pys "</div>\n      </article>\n    "

/-- `_render_card(title=…, description=…, command=…, documentation=…)`. -/
def _render_card (title description command : PyStr)
    (documentation : Option PyStr) : PyStr :=
  let doc_link :=
    if truthy documentation then doc_link_html (documentation.getD []) else []
  let actions :=
    pyJoin (pys " ")
      (([doc_link, command_html command]).filter (fun s => !s.isEmpty))
  cardA ++ title ++ cardB ++ description ++ cardC ++ actions ++ cardD

/-- The card rendered for one module. -/
def cardOfModule (m : ModuleEntry) : PyStr :=
  _render_card m.name m.description m.command m.documentation

/-- The dashboard page up to the interpolated `{module_cards}`. -/
def dashboardPre : PyStr := pys "
<!DOCTYPE html>
<html lang=\"de\">
  <head>
    <meta charset=\"utf-8\">
    <meta name=\"viewport\" content=\"width=device-width, initial-scale=1\">
    <title>Political Party Kit – Dashboard</title>
    <style>
      :root \x7b
        color-scheme: light dark;
        font-family: system-ui, -apple-system, BlinkMacSystemFont, \"Segoe UI\", sans-serif;
        background: #f6f7fb;
        color: #1c1c1c;
      \x7d
      body \x7b
        margin: 0;
        padding: 2rem 1.5rem 4rem;
        background: linear-gradient(135deg, #f6f7fb 0%, #e5e9ff 100%);
      \x7d
      h1 \x7b
        text-align: center;
        margin-bottom: 0.5rem;
      \x7d
      p.lead \x7b
        text-align: center;
        margin-top: 0;
        margin-bottom: 2rem;
        color: #444;
        max-width: 48rem;
        margin-left: auto;
        margin-right: auto;
      \x7d
      main \x7b
        display: grid;
        gap: 1.5rem;
        max-width: 72rem;
        margin: 0 auto;
        grid-template-columns: repeat(auto-fit, minmax(18rem, 1fr));
      \x7d
      article \x7b
        background: white;
        border-radius: 1rem;
        padding: 1.5rem;
        box-shadow: 0 20px 45px rgba(41, 51, 76, 0.15);
        display: flex;
        flex-direction: column;
        gap: 1rem;
      \x7d
      article h2 \x7b
        margin: 0;
        font-size: 1.4rem;
      \x7d
      article p \x7b
        margin: 0;
        flex-grow: 1;
        line-height: 1.5;
      \x7d
      .actions \x7b
        display: flex;
        flex-wrap: wrap;
        gap: 0.75rem;
      \x7d
      .actions a, .actions code \x7b
        font-size: 0.95rem;
      \x7d
      a.button \x7b
        background: #1c4ed8;
        color: white;
        text-decoration: none;
        padding: 0.6rem 1rem;
        border-radius: 999px;
        font-weight: 600;
        transition: background 0.15s ease-in-out, transform 0.15s ease-in-out;
      \x7d
      a.button:hover \x7b
        background: #173da8;
        transform: translateY(-1px);
      \x7d
      code \x7b
        background: rgba(28, 78, 216, 0.08);
        color: #0f1f4b;
        padding: 0.4rem 0.6rem;
        border-radius: 0.5rem;
        display: inline-flex;
        align-items: center;
      \x7d
      footer \x7b
        text-align: center;
        margin-top: 3rem;
        color: #555;
        font-size: 0.9rem;
      \x7d
      @media (prefers-color-scheme: dark) \x7b
        :root \x7b
          background: #111827;
          color: #f9fafb;
        \x7d
        body \x7b
          background: radial-gradient(circle at top, #1f2937 0%, #0f172a 70%);
        \x7d
        article \x7b
          background: rgba(17, 24, 39, 0.95);
          box-shadow: 0 20px 45px rgba(7, 11, 19, 0.35);
        \x7d
        article p \x7b
          color: #e5e7eb;
        \x7d
        a.button \x7b
          background: #2563eb;
        \x7d
        a.button:hover \x7b
          background: #1d4ed8;
        \x7d
        code \x7b
          background: rgba(37, 99, 235, 0.25);
          color: #bfdbfe;
        \x7d
        footer \x7b
          color: #9ca3af;
        \x7d
      \x7d
    </style>
  </head>
  <body>
    <h1>Political Party Kit</h1>
    <p class=\"lead\">
      Zentrale Anlaufstelle für alle Module des Toolkits. Wähle ein Modul aus, um direkt
      in den jeweiligen Workflow zu starten.
    </p>
    <main>
      "

/-- The dashboard page after the interpolated `{module_cards}`. -/
def dashboardPost : PyStr := pys "
    </main>
    <footer>
      Weitere Module lassen sich problemlos ergänzen, indem sie in der Konfiguration des Dashboards registriert werden.
    </footer>
  </body>
</html>
"

/-- `render_dashboard(modules)`: `None` stands for an absent argument;
`modules or default_modules()` replaces `None` and the empty sequence by
the built-in list. -/
def render_dashboard (modules : Option (List ModuleEntry)) : PyStr :=
  let ms := match modules with
    | none => default_modules
    | some l => if l.isEmpty then default_modules else l
  let module_cards := pyJoin (pys "\n") (ms.map cardOfModule)
  dashboardPre ++ module_cards ++ dashboardPost

/-- `write_dashboard(output, modules)`: the HTML text written to the
output file (`list(modules) if modules else None`). -/
def write_dashboard (modules : Option (List ModuleEntry)) : PyStr :=
  render_dashboard
    (match modules with
     | none => none
     | some l => if l.isEmpty then none else some l)


/- ### Elementary lemmas about the string layer -/

theorem lstrip_idem (s : PyStr) : lstrip (lstrip s) = lstrip s :=
  List.dropWhile_idempotent _ _

theorem rstrip_idem (s : PyStr) : rstrip (rstrip s) = rstrip s :=
  List.rdropWhile_idempotent _ _

theorem rstrip_prefix_self (s : PyStr) : rstrip s <+: s :=
  List.rdropWhile_prefix _ _

theorem lstrip_suffix (s : PyStr) : lstrip s <:+ s :=
  List.dropWhile_suffix _

theorem strip_sublist (s : PyStr) : (strip s).Sublist s :=
  ((rstrip_prefix_self (lstrip s)).sublist).trans (lstrip_suffix s).sublist

theorem mem_of_mem_strip {c : Char} {s : PyStr} (h : c ∈ strip s) : c ∈ s :=
  (strip_sublist s).subset h

/-- A prefix of a list whose `dropWhile` is trivial also has a trivial
`dropWhile`. -/
theorem lstrip_eq_self_of_prefix {t r : PyStr} (ht : lstrip t = t)
    (hr : r <+: t) : lstrip r = r := by
  obtain ⟨v, hv⟩ := hr
  cases r with
  | nil => rfl
  | cons c r' =>
      subst hv
      have ht' : List.dropWhile isSpace ((c :: r') ++ v) = (c :: r') ++ v := ht
      have hc := List.dropWhile_eq_self_iff.mp ht' (by simp)
      apply List.dropWhile_eq_self_iff.mpr
      intro _
      simpa using hc

theorem strip_idem (s : PyStr) : strip (strip s) = strip s := by
  have h1 : lstrip (rstrip (lstrip s)) = rstrip (lstrip s) :=
    lstrip_eq_self_of_prefix (lstrip_idem s) (rstrip_prefix_self (lstrip s))
  simp only [strip, h1, rstrip_idem]

/-- If `strip` fixes a list, then both one-sided strips fix it. -/
theorem lstrip_rstrip_of_strip_eq_self {s : PyStr} (h : strip s = s) :
    lstrip s = s ∧ rstrip s = s := by
  have hsub1 : (rstrip (lstrip s)).Sublist (lstrip s) :=
    (rstrip_prefix_self (lstrip s)).sublist
  have hsub2 : (lstrip s).Sublist s := (lstrip_suffix s).sublist
  have hlen1 := hsub1.length_le
  have hlen2 := hsub2.length_le
  have hlen : (strip s).length = s.length := by rw [h]
  simp only [strip] at hlen
  have hls : lstrip s = s := hsub2.eq_of_length (by omega)
  refine ⟨hls, ?_⟩
  have := h
  simp only [strip, hls] at this
  exact this

/-- A non-whitespace head is preserved by `strip`-fixedness. -/
theorem head_not_space_of_strip_eq_self {c : Char} {s' : PyStr}
    (h : strip (c :: s') = c :: s') : isSpace c = false := by
  have hls := (lstrip_rstrip_of_strip_eq_self h).1
  have := List.dropWhile_eq_self_iff.mp hls (by simp)
  simpa using this

theorem last_not_space_of_strip_eq_self {s : PyStr} (hne : s ≠ [])
    (h : strip s = s) : isSpace (s.getLast hne) = false := by
  have hrs := (lstrip_rstrip_of_strip_eq_self h).2
  have := List.rdropWhile_eq_self_iff.mp hrs hne
  simpa using this

/-- Key step for the chunker: gluing two stripped nonempty pieces with a
newline produces a string that `strip` leaves alone. -/
theorem strip_glue {b p : PyStr} (hb : b ≠ []) (hp : p ≠ [])
    (hsb : strip b = b) (hsp : strip p = p) :
    strip (b ++ '\n' :: p) = b ++ '\n' :: p := by
  have hls : lstrip (b ++ '\n' :: p) = b ++ '\n' :: p := by
    cases b with
    | nil => exact absurd rfl hb
    | cons c b' =>
        have hc : isSpace c = false := head_not_space_of_strip_eq_self hsb
        simp [lstrip, List.dropWhile, hc]
  have hrs : rstrip (b ++ '\n' :: p) = b ++ '\n' :: p := by
    apply List.rdropWhile_eq_self_iff.mpr
    intro hne
    have hlast : (b ++ '\n' :: p).getLast hne = p.getLast hp := by
      rw [List.getLast_append]
      simp [hp, List.isEmpty_iff]
    rw [hlast]
    simp [last_not_space_of_strip_eq_self hp hsp]
  simp only [strip, hls, hrs]

/-- If every character of `s` is whitespace, then `strip s` is empty. -/
theorem strip_eq_nil_of_all_space {s : PyStr}
    (h : ∀ c ∈ s, isSpace c = true) : strip s = [] := by
  have hls : lstrip s = [] := List.dropWhile_eq_nil_iff.mpr h
  simp [strip, hls, rstrip, List.rdropWhile_nil]

/- ### Lemmas about splitting and joining -/

theorem pySplitChar_ne_nil (sep : Char) (s : PyStr) :
    pySplitChar sep s ≠ [] := by
  induction s with
  | nil => simp [pySplitChar]
  | cons c cs ih =>
      simp only [pySplitChar]
      split
      · simp
      · split
        · simp
        · simp

theorem not_mem_of_mem_pySplitChar {sep : Char} {s : PyStr} {p : PyStr}
    (hp : p ∈ pySplitChar sep s) : sep ∉ p := by
  induction s generalizing p with
  | nil =>
      simp only [pySplitChar, List.mem_singleton] at hp
      subst hp; simp
  | cons c cs ih =>
      simp only [pySplitChar] at hp
      split at hp
      · rcases List.mem_cons.mp hp with h | h
        · subst h; simp
        · exact ih h
      · rename_i hc
        rcases hsplit : pySplitChar sep cs with _ | ⟨q, qs⟩
        · exact absurd hsplit (pySplitChar_ne_nil sep cs)
        · rw [hsplit] at hp
          rcases List.mem_cons.mp hp with h | h
          · subst h
            intro hmem
            rcases List.mem_cons.mp hmem with h' | h'
            · exact hc h'.symm
            · exact ih (by rw [hsplit]; exact List.mem_cons_self q qs) h'
          · exact ih (by rw [hsplit]; exact List.mem_cons_of_mem q h)

theorem subset_of_mem_pySplitChar {sep : Char} {s : PyStr} {p : PyStr}
    (hp : p ∈ pySplitChar sep s) : ∀ c ∈ p, c ∈ s := by
  induction s generalizing p with
  | nil =>
      simp only [pySplitChar, List.mem_singleton] at hp
      subst hp; simp
  | cons c cs ih =>
      simp only [pySplitChar] at hp
      intro x hx
      split at hp
      · rcases List.mem_cons.mp hp with h | h
        · subst h; simp at hx
        · exact List.mem_cons_of_mem c (ih h x hx)
      · rcases hsplit : pySplitChar sep cs with _ | ⟨q, qs⟩
        · exact absurd hsplit (pySplitChar_ne_nil sep cs)
        · rw [hsplit] at hp
          rcases List.mem_cons.mp hp with h | h
          · subst h
            rcases List.mem_cons.mp hx with h' | h'
            · subst h'; exact List.mem_cons_self x cs
            · exact List.mem_cons_of_mem c
                (ih (by rw [hsplit]; exact List.mem_cons_self q qs) x h')
          · exact List.mem_cons_of_mem c
              (ih (by rw [hsplit]; exact List.mem_cons_of_mem q h) x hx)

/-- Splitting a separator-free string gives back the single piece. -/
theorem pySplitChar_eq_self {sep : Char} {p : PyStr} (h : sep ∉ p) :
    pySplitChar sep p = [p] := by
  induction p with
  | nil => rfl
  | cons c cs ih =>
      have hc : ¬c = sep := by
        intro hh; exact h (by simp [hh])
      have hcs : sep ∉ cs := fun hm => h (List.mem_cons_of_mem c hm)
      simp [pySplitChar, hc, ih hcs]

theorem pySplitChar_append_cons {sep : Char} {a t : PyStr} (h : sep ∉ a) :
    pySplitChar sep (a ++ sep :: t) = a :: pySplitChar sep t := by
  induction a with
  | nil => simp [pySplitChar]
  | cons c a' ih =>
      have hc : ¬c = sep := by
        intro hh; exact h (by simp [hh])
      have ha' : sep ∉ a' := fun hm => h (List.mem_cons_of_mem c hm)
      simp [pySplitChar, hc, ih ha']

/-- Joining separator-free pieces and splitting again is the identity. -/
theorem pySplitChar_pyJoin {sep : Char} :
    ∀ {ps : List PyStr}, ps ≠ [] → (∀ p ∈ ps, sep ∉ p) →
      pySplitChar sep (pyJoin [sep] ps) = ps
  | [], h, _ => absurd rfl h
  | [p], _, hall => by
      simp only [pyJoin]
      exact pySplitChar_eq_self (hall p (List.mem_singleton_self p))
  | p :: q :: rest, _, hall => by
      have hjoin : pyJoin [sep] (p :: q :: rest) =
          p ++ sep :: pyJoin [sep] (q :: rest) := by
        simp [pyJoin]
      rw [hjoin, pySplitChar_append_cons (hall p (List.mem_cons_self _ _))]
      congr 1
      exact pySplitChar_pyJoin (by simp)
        (fun x hx => hall x (List.mem_cons_of_mem p hx))

theorem pyJoin_ne_nil {sep : PyStr} :
    ∀ {ps : List PyStr}, ps ≠ [] → (∀ p ∈ ps, p ≠ []) →
      pyJoin sep ps ≠ []
  | [], h, _ => absurd rfl h
  | [p], _, hall => by
      simpa [pyJoin] using hall p (List.mem_singleton_self p)
  | p :: q :: rest, _, hall => by
      have hp : p ≠ [] := hall p (List.mem_cons_self _ _)
      simp only [pyJoin]
      simp [hp]

theorem pyJoin_concat {sep p : PyStr} :
    ∀ {ps : List PyStr}, ps ≠ [] →
      pyJoin sep (ps ++ [p]) = pyJoin sep ps ++ sep ++ p
  | [], h => absurd rfl h
  | [q], _ => by simp [pyJoin]
  | q :: r :: rest, _ => by
      have ih := @pyJoin_concat sep p (r :: rest) (by simp)
      simp only [List.cons_append, pyJoin, List.append_eq] at ih ⊢
      rw [ih]
      simp [List.append_assoc]

theorem pyJoin_cons_decompose (sep : PyStr) (b : PyStr) (rest : List PyStr) :
    ∃ t, pyJoin sep (b :: rest) = b ++ t := by
  cases rest with
  | nil => exact ⟨[], by simp [pyJoin]⟩
  | cons q qs => exact ⟨sep ++ pyJoin sep (q :: qs), by simp [pyJoin]⟩


theorem paragraphsOf_good {text : PyStr} {p : PyStr}
    (hp : p ∈ paragraphsOf text) : GoodPara p := by
  simp only [paragraphsOf, List.mem_filter, List.mem_map] at hp
  obtain ⟨⟨q, hq, hqp⟩, hne⟩ := hp
  subst hqp
  refine ⟨by simpa [List.isEmpty_iff] using hne, strip_idem q, ?_⟩
  intro hmem
  exact not_mem_of_mem_pySplitChar hq (mem_of_mem_strip hmem)

/-- The glued buffer really is the newline-join of its paragraphs. -/
theorem strip_join_glue {bp : List PyStr} {p : PyStr} (hbp : bp ≠ [])
    (hgood : ∀ q ∈ bp, GoodPara q) (hp : GoodPara p) :
    strip (pyJoin ['\n'] bp ++ '\n' :: p) = pyJoin ['\n'] (bp ++ [p]) := by
  have hglue : pyJoin ['\n'] (bp ++ [p]) = pyJoin ['\n'] bp ++ '\n' :: p := by
    rw [pyJoin_concat hbp]; simp
  -- `strip` fixes the glued string because the join of good paragraphs is
  -- itself nonempty and fixed by `strip`.
  have hjoin_good : ∀ {l : List PyStr}, l ≠ [] → (∀ q ∈ l, GoodPara q) →
      pyJoin ['\n'] l ≠ [] ∧ strip (pyJoin ['\n'] l) = pyJoin ['\n'] l := by
    intro l
    induction l with
    | nil => intro h; exact absurd rfl h
    | cons q qs ih =>
        intro _ hall
        have hq := hall q (List.mem_cons_self _ _)
        cases qs with
        | nil => exact ⟨by simpa [pyJoin] using hq.1, by simpa [pyJoin] using hq.2.1⟩
        | cons r rs =>
            have hrest := ih (by simp) (fun x hx => hall x (List.mem_cons_of_mem q hx))
            have hform : pyJoin ['\n'] (q :: r :: rs) =
                q ++ '\n' :: pyJoin ['\n'] (r :: rs) := by simp [pyJoin]
            constructor
            · rw [hform]; simp [hq.1]
            · rw [hform]
              exact strip_glue hq.1 hrest.1 hq.2.1 hrest.2
  have hres := (@hjoin_good (bp ++ [p]) (by simp)
    (by
      intro x hx
      rcases List.mem_append.mp hx with h | h
      · exact hgood x h
      · simp only [List.mem_singleton] at h; subst h; exact hp)).2
  rw [hglue] at hres
  rw [hglue]
  exact hres

theorem pyJoin_good_ne_nil {bp : List PyStr} (hbp : bp ≠ [])
    (hgood : ∀ q ∈ bp, GoodPara q) : pyJoin ['\n'] bp ≠ [] :=
  pyJoin_ne_nil hbp (fun q hq => (hgood q hq).1)

/-- Splitting a joined buffer at its newlines recovers the paragraphs. -/
theorem splitNl_pyJoin_good {bp : List PyStr} (hbp : bp ≠ [])
    (hgood : ∀ q ∈ bp, GoodPara q) :
    pySplitChar '\n' (pyJoin ['\n'] bp) = bp :=
  pySplitChar_pyJoin hbp (fun q hq => (hgood q hq).2.2)

/-- Main chunker invariant: running the loop with a buffer holding the
paragraphs `bp` produces chunks whose newline-decomposition is exactly
`bp ++ ps`. -/
theorem chunkGo_join (target : Nat) :
    ∀ (ps : List PyStr) (bp : List PyStr),
      (∀ p ∈ ps, GoodPara p) → (∀ p ∈ bp, GoodPara p) →
      ((chunkGo target (pyJoin ['\n'] bp) ps).map (pySplitChar '\n')).flatten
        = bp ++ ps
  | [], bp, _, hbp => by
      cases bp with
      | nil => simp [chunkGo, pyJoin]
      | cons b bs =>
          have hne := @pyJoin_good_ne_nil (b :: bs) (by simp) hbp
          have hnotE : (pyJoin ['\n'] (b :: bs)).isEmpty = false := by
            simpa [List.isEmpty_iff] using hne
          simp [chunkGo, hnotE, @splitNl_pyJoin_good (b :: bs) (by simp) hbp]
  | p :: ps, bp, hps, hbp => by
      have hp : GoodPara p := hps p (List.mem_cons_self _ _)
      have hps' : ∀ q ∈ ps, GoodPara q :=
        fun q hq => hps q (List.mem_cons_of_mem p hq)
      have hsingle : ∀ x ∈ [p], GoodPara x := by
        intro x hx; simp only [List.mem_singleton] at hx; subst hx; exact hp
      have hpj : pyJoin ['\n'] [p] = p := by simp [pyJoin]
      have ihp := chunkGo_join target ps [p] hps' hsingle
      rw [hpj] at ihp
      cases bp with
      | nil =>
          have h1 : (pyJoin ['\n'] ([] : List PyStr)).isEmpty = true := by
            simp [pyJoin]
          simp only [chunkGo, h1, if_true, ite_self]
          rw [ihp]
          simp
      | cons b bs =>
          have hbs : (b :: bs : List PyStr) ≠ [] := by simp
          have hne := pyJoin_good_ne_nil hbs hbp
          have hnotE : (pyJoin ['\n'] (b :: bs)).isEmpty = false := by
            simpa [List.isEmpty_iff] using hne
          have hcand : strip (pyJoin ['\n'] (b :: bs) ++ '\n' :: p)
              = pyJoin ['\n'] ((b :: bs) ++ [p]) :=
            strip_join_glue hbs hbp hp
          have hext : ∀ x ∈ (b :: bs) ++ [p], GoodPara x := by
            intro x hx
            rcases List.mem_append.mp hx with h | h
            · exact hbp x h
            · simp only [List.mem_singleton] at h; subst h; exact hp
          have ih1 := chunkGo_join target ps ((b :: bs) ++ [p]) hps' hext
          simp only [chunkGo, hnotE, Bool.false_eq_true, if_false, hcand]
          by_cases hfit : (pyJoin ['\n'] ((b :: bs) ++ [p])).length ≤ target
          · rw [if_pos hfit, ih1]
            simp
          · rw [if_neg hfit]
            simp only [List.map_cons, List.flatten_cons]
            rw [splitNl_pyJoin_good hbs hbp, ihp]
            simp

/-- Bound invariant: every chunk either fits the budget or is a single
paragraph (no newline inside). -/
theorem chunkGo_bound (target : Nat) :
    ∀ (ps : List PyStr) (buffer : PyStr),
      (buffer.length ≤ target ∨ '\n' ∉ buffer) → (∀ p ∈ ps, '\n' ∉ p) →
      ∀ c ∈ chunkGo target buffer ps, c.length ≤ target ∨ '\n' ∉ c
  | [], buffer, hbuf, _, c, hc => by
      simp only [chunkGo] at hc
      split at hc
      · simp at hc
      · simp only [List.mem_singleton] at hc; subst hc; exact hbuf
  | p :: ps, buffer, hbuf, hps, c, hc => by
      have hp : '\n' ∉ p := hps p (List.mem_cons_self _ _)
      have hps' : ∀ q ∈ ps, '\n' ∉ q :=
        fun q hq => hps q (List.mem_cons_of_mem p hq)
      cases hb : buffer.isEmpty with
      | true =>
          simp only [chunkGo, hb, if_true, ite_self] at hc
          exact chunkGo_bound target ps p (Or.inr hp) hps' c hc
      | false =>
          simp only [chunkGo, hb, Bool.false_eq_true, if_false] at hc
          split at hc
          · rename_i hfit
            exact chunkGo_bound target ps _ (Or.inl hfit) hps' c hc
          · rcases List.mem_cons.mp hc with h | h
            · subst h; exact hbuf
            · exact chunkGo_bound target ps p (Or.inr hp) hps' c h


/- ## The claims -/

/-- C1, counterexample: the claim "every chunk returned by `chunk_text`
has length at most `target_chars`" is false: on the text `"aaaa"` with
budget 3 the single paragraph does not fit the budget and is emitted as an
oversized chunk of length 4. -/
theorem chunk_text_budget_cx :
    ∃ c ∈ chunk_text ['a', 'a', 'a', 'a'] 3, ¬c.length ≤ 3 := by decide

/-- C1 (amended): every chunk returned by `chunk_text` either has length
at most the configured budget or consists of a single paragraph (it
contains no newline separator); only a lone oversized paragraph may exceed
the budget. -/
theorem chunk_text_budget (text : PyStr) (target : Nat) :
    ∀ c ∈ chunk_text text target, c.length ≤ target ∨ '\n' ∉ c := by
  intro c hc
  unfold chunk_text at hc
  split at hc
  · simp at hc
  · exact chunkGo_bound target (paragraphsOf text) []
      (Or.inl (by simp)) (fun p hp => (paragraphsOf_good hp).2.2) c hc

/-- C1 witness: the amended bound evaluated on a concrete run. -/
theorem chunk_text_budget_witness :
    (['a'] : PyStr).length ≤ 5 ∨ '\n' ∉ (['a'] : PyStr) :=
  chunk_text_budget ['a'] 5 ['a'] (by decide)

/-- C2: splitting every chunk of `chunk_text` at its internal newlines and
concatenating reproduces, in order, exactly the stripped non-blank lines
of the original text, and the empty input yields zero chunks. -/
theorem chunk_text_rejoin (text : PyStr) (target : Nat) :
    ((chunk_text text target).map (pySplitChar '\n')).flatten
      = paragraphsOf text
    ∧ chunk_text [] target = [] := by
  constructor
  · unfold chunk_text
    split
    · rename_i h
      have htext : text = [] := by simpa [List.isEmpty_iff] using h
      subst htext
      decide
    · have h := chunkGo_join target (paragraphsOf text) []
        (fun p hp => paragraphsOf_good hp) (by simp)
      simpa [pyJoin] using h
  · rfl

/-- C4: `parse_semicolon_list` on `"A;B ;;C"` yields `["A","B","C"]`, on
the empty and on whitespace-only strings yields `[]`, and every element of
any result is a non-empty string fixed by trimming. -/
theorem parse_semicolon_props :
    parse_semicolon_list ['A', ';', 'B', ' ', ';', ';', 'C']
        = [['A'], ['B'], ['C']]
    ∧ parse_semicolon_list [] = []
    ∧ (∀ v : PyStr, (∀ c ∈ v, isSpace c = true) → parse_semicolon_list v = [])
    ∧ (∀ (v x : PyStr), x ∈ parse_semicolon_list v → x ≠ [] ∧ strip x = x) := by
  refine ⟨by decide, rfl, ?_, ?_⟩
  · intro v hv
    by_cases hve : v.isEmpty = true
    · simp [parse_semicolon_list, hve]
    · unfold parse_semicolon_list
      rw [if_neg hve]
      rw [List.map_eq_nil_iff]
      rw [List.filter_eq_nil_iff]
      intro i hi
      have hall : ∀ c ∈ i, isSpace c = true :=
        fun c hc => hv c (subset_of_mem_pySplitChar hi c hc)
      simp [strip_eq_nil_of_all_space hall]
  · intro v x hx
    unfold parse_semicolon_list at hx
    split at hx
    · simp at hx
    · simp only [List.mem_map, List.mem_filter] at hx
      obtain ⟨i, ⟨hi, hne⟩, hxi⟩ := hx
      subst hxi
      refine ⟨?_, strip_idem i⟩
      simpa [List.isEmpty_iff] using hne

/-- C4 witness: the claim's universally quantified parts evaluated at a
whitespace-only input. -/
theorem parse_semicolon_props_witness :
    parse_semicolon_list [' ', '\t'] = [] :=
  parse_semicolon_props.2.2.1 [' ', '\t'] (by decide)

/-- C3, counterexample: the dict round-trip is not the identity on every
`MeetingMetadata`: an empty-string `datum` is sent to `None` by
`from_dict` (`payload.get("datum") or None`). -/
theorem meta_roundtrip_cx :
    MeetingMetadata.from_dict
        (MeetingMetadata.to_dict ({ datum := some [] } : MeetingMetadata))
      ≠ ({ datum := some [] } : MeetingMetadata) := by decide

/-- C3 (amended): the round-trip `from_dict ∘ to_dict` restores all twelve
fields whenever none of the six optional scalar fields holds the empty
string (`Some ""`). -/
theorem meta_roundtrip (m : MeetingMetadata)
    (hd : m.datum ≠ some []) (ho : m.ort ≠ some [])
    (hs : m.startzeit ≠ some []) (he : m.endzeit ≠ some [])
    (hmo : m.moderation ≠ some []) (hpr : m.protokoll ≠ some []) :
    MeetingMetadata.from_dict (MeetingMetadata.to_dict m) = m := by
  have hfield : ∀ (x : Option PyStr), x ≠ some [] → getOrNone (some x) = x := by
    intro x hx
    match x with
    | none => rfl
    | some s =>
        have hne : s.isEmpty = false := by
          cases hh : s.isEmpty
          · rfl
          · exact absurd (by simpa [List.isEmpty_iff] using hh : s = [])
              (fun hnil => hx (by rw [hnil]))
        simp [getOrNone, hne]
  obtain ⟨t, d, o, s, e, mo, pr, te, ga, ag, zi, hi⟩ := m
  simp only at hd ho hs he hmo hpr
  simp [MeetingMetadata.to_dict, MeetingMetadata.from_dict, getListOr,
    hfield _ hd, hfield _ ho, hfield _ hs, hfield _ he, hfield _ hmo,
    hfield _ hpr]

/-- C3 witness: the amended round-trip evaluated on concrete metadata. -/
theorem meta_roundtrip_witness :
    MeetingMetadata.from_dict
        (MeetingMetadata.to_dict
          ({ titel := ['T'], datum := some ['d'], teilnehmer := [['x']] }
            : MeetingMetadata))
      = ({ titel := ['T'], datum := some ['d'], teilnehmer := [['x']] }
            : MeetingMetadata) :=
  meta_roundtrip _ (by decide) (by decide) (by decide) (by decide)
    (by decide) (by decide)

/-- C5: `transcribe_audio` raises exactly when the audio path does not
exist; when it exists, `generate` succeeds on the transcription step and
the transcript it feeds to the rest of the pipeline is the service text
with surrounding whitespace stripped. -/
theorem transcribe_contract (svc : Services) (audio_path language_hint : PyStr) :
    ((∃ e, transcribe_audio svc.fsExists svc.whisper audio_path language_hint
        = .error e) ↔ svc.fsExists audio_path = false)
    ∧ (svc.fsExists audio_path = true →
        ∀ (nowDate nowStamp : PyStr) (σ : MetaStore) (metadataRef : Nat)
          (output_path : PyStr) (prompt_for_metadata : Bool)
          (rounds : List CollectRound),
          ∃ res : GenerateResult,
            (MeetingMinutesGenerator.generate svc nowDate nowStamp σ
              metadataRef audio_path output_path language_hint
              prompt_for_metadata rounds).2 = .ok res
            ∧ res.transcript
                = strip (svc.whisper audio_path language_hint)) := by
  constructor
  · constructor
    · rintro ⟨e, he⟩
      cases h : svc.fsExists audio_path
      · rfl
      · simp [transcribe_audio, h] at he
    · intro hf
      exact ⟨pys "Audiodatei nicht gefunden: " ++ audio_path,
        by simp [transcribe_audio, hf]⟩
  · intro hf nowDate nowStamp σ metadataRef output_path pfm rounds
    have hta : transcribe_audio svc.fsExists svc.whisper audio_path
        language_hint = .ok (svc.whisper audio_path language_hint) := by
      simp [transcribe_audio, hf]
    unfold MeetingMinutesGenerator.generate
    rw [hta]
    exact ⟨_, rfl, rfl⟩

/-- C5 witness: the contract evaluated on concrete stand-in services. -/
theorem transcribe_contract_witness :
    ∃ res : GenerateResult,
      (MeetingMinutesGenerator.generate stubServices [] [] ⟨[]⟩ 0 ['a'] ['o']
        ['d'] false []).2 = .ok res
      ∧ res.transcript = strip (stubServices.whisper ['a'] ['d']) :=
  (transcribe_contract stubServices ['a'] ['d']).2 rfl [] [] ⟨[]⟩ 0 ['o']
    false []

/-- The three-way `startswith(("#", "##", "###"))` test of `build_docx` is
just a `"#"`-prefix test. -/
theorem isPrefixOf_hash_or (s : PyStr) :
    (List.isPrefixOf ['#'] s || List.isPrefixOf ['#', '#'] s
        || List.isPrefixOf ['#', '#', '#'] s)
      = List.isPrefixOf ['#'] s := by
  cases s with
  | nil => rfl
  | cons c cs =>
      cases hA : ('#' == c) <;> simp [List.isPrefixOf, hA]

/-- Each iteration of the body loop of `build_docx` appends exactly one
paragraph, bold precisely on the heading/label heuristics, with the
heading size set precisely on the heading branch. -/
theorem emitLine_spec (line : PyStr) :
    ∃ para : DocxPara, emitLine line = [para]
      ∧ para.bold
          = (List.isPrefixOf ['#'] (strip line)
             || (List.isSuffixOf [':'] (strip line)
                 && decide ((strip line).length < 120)))
      ∧ para.size
          = (if List.isPrefixOf ['#'] (strip line)
             then some (if (strip line).count '#' = 1 then 14 else 12)
             else none) := by
  simp only [emitLine]
  rw [isPrefixOf_hash_or]
  by_cases h1 : List.isPrefixOf ['#'] (strip line) = true
  · refine ⟨_, by rw [if_pos h1], ?_, ?_⟩ <;> simp [h1]
  · rw [if_neg h1]
    by_cases h2 : (List.isSuffixOf [':'] (strip line)
        && decide ((strip line).length < 120)) = true
    · refine ⟨_, by rw [if_pos h2], ?_, ?_⟩ <;> simp [h1, h2]
    · rw [if_neg h2]
      by_cases h3 : (List.isPrefixOf ['-'] (strip line)
          || List.isPrefixOf ['*'] (strip line)
          || List.isPrefixOf ['•'] (strip line)) = true
      · refine ⟨_, by rw [if_pos h3], ?_, ?_⟩ <;> simp [h1, h2]
      · refine ⟨_, by rw [if_neg h3], ?_, ?_⟩ <;> simp [h1, h2]

/-- The body loop emits one paragraph per input line. -/
theorem flatMap_emitLine_length (ls : List PyStr) :
    (ls.flatMap emitLine).length = ls.length := by
  induction ls with
  | nil => rfl
  | cons l ls ih =>
      obtain ⟨p, hp, -, -⟩ := emitLine_spec l
      simp [hp, ih]

/-- C7: `build_docx` renders the body as exactly one paragraph per line of
the text (the lines being `text.split("\n")`), a body paragraph is bold
precisely when its stripped line starts with `#` or ends with `:` at fewer
than 120 characters, and the heading size is 14pt for a single `#` and
12pt otherwise; bullet and plain lines are non-bold and unsized. -/
theorem build_docx_body_spec (text : PyStr) (meta : MeetingMetadata)
    (now : PyStr) :
    build_docx text meta now
      = docxHeaderParas meta ++ (pySplitChar '\n' text).flatMap emitLine
          ++ docxFooterParas now
    ∧ ((pySplitChar '\n' text).flatMap emitLine).length
        = (pySplitChar '\n' text).length
    ∧ ∀ line : PyStr, ∃ para : DocxPara, emitLine line = [para]
        ∧ para.bold
            = (List.isPrefixOf ['#'] (strip line)
               || (List.isSuffixOf [':'] (strip line)
                   && decide ((strip line).length < 120)))
        ∧ para.size
            = (if List.isPrefixOf ['#'] (strip line)
               then some (if (strip line).count '#' = 1 then 14 else 12)
               else none) :=
  ⟨rfl, flatMap_emitLine_length _, fun line => emitLine_spec line⟩

/-- The store returned by `generate` is the store after the deep copy and
the optional interactive form, whatever the transcription outcome. -/
theorem generate_fst (svc : Services) (nowDate nowStamp : PyStr)
    (σ : MetaStore) (metadataRef : Nat)
    (audio_path output_path language_hint : PyStr)
    (prompt_for_metadata : Bool) (rounds : List CollectRound) :
    (MeetingMinutesGenerator.generate svc nowDate nowStamp σ metadataRef
        audio_path output_path language_hint prompt_for_metadata rounds).1
      = (if prompt_for_metadata = true then
          collect_meeting_metadata nowDate (σ.alloc (σ.read metadataRef)).1
            (σ.alloc (σ.read metadataRef)).2 rounds
         else σ.alloc (σ.read metadataRef)).1 := by
  unfold MeetingMinutesGenerator.generate
  cases transcribe_audio svc.fsExists svc.whisper audio_path language_hint <;>
    rfl

/-- Frame of the collection loop: only the cell being edited changes. -/
theorem collectGo_frame (nowDate : PyStr) :
    ∀ (rounds : List CollectRound) (σ : MetaStore) (ref i : Nat), i ≠ ref →
      (collectGo nowDate σ ref rounds).1.cells[i]? = σ.cells[i]?
  | [], _, _, _, _ => rfl
  | r :: rest, σ, ref, i, hne => by
      simp only [collectGo]
      split
      · simp [MetaStore.write, List.getElem?_set_ne (Ne.symm hne)]
      · rw [collectGo_frame nowDate rest _ ref i hne]
        simp [MetaStore.write, List.getElem?_set_ne (Ne.symm hne)]

/-- Frame of `collect_meeting_metadata`: the deep copy protects every
pre-existing cell. -/
theorem collect_frame (nowDate : PyStr) (σ : MetaStore) (base : Nat)
    (rounds : List CollectRound) (i : Nat) (hi : i < σ.cells.length) :
    (collect_meeting_metadata nowDate σ base rounds).1.cells[i]?
      = σ.cells[i]? := by
  unfold collect_meeting_metadata MetaStore.alloc
  rw [collectGo_frame nowDate rounds _ _ i (by omega)]
  simp [List.getElem?_append, hi]

/-- C8: `collect_meeting_metadata` and `MeetingMinutesGenerator.generate`
work on a deep copy; every metadata cell that existed before the call
still holds its old value afterwards — in particular the caller's record
is unchanged. -/
theorem metadata_frame (nowDate : PyStr) (σ : MetaStore) (base : Nat)
    (rounds : List CollectRound) (i : Nat) (hi : i < σ.cells.length) :
    (collect_meeting_metadata nowDate σ base rounds).1.cells[i]?
        = σ.cells[i]?
    ∧ ∀ (svc : Services)
        (nowStamp audio_path output_path language_hint : PyStr)
        (prompt_for_metadata : Bool),
        (MeetingMinutesGenerator.generate svc nowDate nowStamp σ base
            audio_path output_path language_hint prompt_for_metadata
            rounds).1.cells[i]?
          = σ.cells[i]? := by
  refine ⟨collect_frame nowDate σ base rounds i hi, ?_⟩
  intro svc nowStamp audio_path output_path language_hint pfm
  have halloc : ∀ m : MeetingMetadata,
      (σ.alloc m).1.cells[i]? = σ.cells[i]? := by
    intro m
    simp [MetaStore.alloc, List.getElem?_append, hi]
  rw [generate_fst]
  by_cases hp : pfm = true
  · rw [if_pos hp]
    rw [collect_frame nowDate _ _ rounds i
      (by simp [MetaStore.alloc]; omega)]
    exact halloc _
  · rw [if_neg hp]
    exact halloc _

/-- C8 witness: the frame evaluated on a one-cell store. -/
theorem metadata_frame_witness :
    (collect_meeting_metadata [] ⟨[{ titel := ['x'] }]⟩ 0 []).1.cells[0]?
      = (⟨[{ titel := ['x'] }]⟩ : MetaStore).cells[0]? :=
  (metadata_frame [] ⟨[{ titel := ['x'] }]⟩ 0 [] 0 (by decide)).1

/-- C10: when the stripped transcript is empty the pipeline still runs:
the chunker yields no chunks, no partial summaries arise, consolidation is
nevertheless invoked — with the raw transcript as single list element —
and the document is still built and the output path returned. -/
theorem generate_empty_transcript (svc : Services)
    (nowDate nowStamp : PyStr) (σ : MetaStore) (metadataRef : Nat)
    (audio_path output_path language_hint : PyStr)
    (prompt_for_metadata : Bool) (rounds : List CollectRound)
    (hex : svc.fsExists audio_path = true)
    (hstrip : strip (svc.whisper audio_path language_hint) = []) :
    ∃ res : GenerateResult,
      (MeetingMinutesGenerator.generate svc nowDate nowStamp σ metadataRef
          audio_path output_path language_hint prompt_for_metadata
          rounds).2 = .ok res
      ∧ res.transcript = []
      ∧ res.chunks = []
      ∧ res.partials = []
      ∧ res.consolidationInput = [res.transcript]
      ∧ res.final_minutes
          = svc.consolidate [res.transcript]
              (generateMeta nowDate σ metadataRef prompt_for_metadata rounds)
      ∧ res.document
          = build_docx res.final_minutes
              (generateMeta nowDate σ metadataRef prompt_for_metadata rounds)
              nowStamp
      ∧ res.returnedPath = output_path := by
  have hta : transcribe_audio svc.fsExists svc.whisper audio_path
      language_hint = .ok (svc.whisper audio_path language_hint) := by
    simp [transcribe_audio, hex]
  unfold MeetingMinutesGenerator.generate
  rw [hta]
  refine ⟨_, rfl, hstrip, ?_, ?_, ?_, ?_, ?_, rfl⟩ <;>
    first
      | rfl
      | simp [hstrip, chunk_text, generateMeta]

/-- C10 witness: the empty-transcript run evaluated on stand-in services
whose transcription is whitespace only. -/
theorem generate_empty_transcript_witness :
    ∃ res : GenerateResult,
      (MeetingMinutesGenerator.generate blankServices [] [] ⟨[]⟩ 0 ['a']
          ['o'] ['d'] false []).2 = .ok res
      ∧ res.consolidationInput = [res.transcript] := by
  obtain ⟨res, h1, -, -, -, h5, -⟩ :=
    generate_empty_transcript blankServices [] [] ⟨[]⟩ 0 ['a'] ['o'] ['d']
      false [] rfl (by decide)
  exact ⟨res, h1, h5⟩

/-- The documentation link markup is never the empty string. -/
theorem doc_link_html_isEmpty (d : PyStr) :
    (doc_link_html d).isEmpty = false := rfl

/-- The command markup is never the empty string. -/
theorem command_html_isEmpty (c : PyStr) :
    (command_html c).isEmpty = false := rfl

/-- The `" ".join(filter(None, [doc_link, command_html]))` of
`_render_card`, evaluated: the link is kept exactly when the
documentation field is truthy. -/
theorem actions_eq (cmd : PyStr) (docu : Option PyStr) :
    pyJoin (pys " ") (List.filter (fun s => !s.isEmpty)
        [if truthy docu = true then doc_link_html (docu.getD []) else [],
         command_html cmd])
      = if truthy docu = true
        then doc_link_html (docu.getD []) ++ pys " " ++ command_html cmd
        else command_html cmd := by
  by_cases hd : truthy docu = true
  · simp [hd, List.filter, doc_link_html_isEmpty, command_html_isEmpty,
      pyJoin]
  · simp [hd, List.filter, command_html_isEmpty, pyJoin]

/-- The full shape of a rendered card. -/
theorem render_card_eq (title desc cmd : PyStr) (docu : Option PyStr) :
    _render_card title desc cmd docu
      = cardA ++ title ++ cardB ++ desc ++ cardC
          ++ (if truthy docu = true
              then doc_link_html (docu.getD []) ++ pys " " ++ command_html cmd
              else command_html cmd)
          ++ cardD := by
  simp only [_render_card]
  rw [actions_eq]

/-- C6, counterexample: as stated the claim fails on the empty module
list, which is replaced by the default modules, so the page does not
consist of zero cards; moreover a card whose documentation field holds the
empty string carries no link although the field is provided. -/
theorem render_dashboard_cards_cx :
    render_dashboard (some ([] : List ModuleEntry))
        ≠ dashboardPre
            ++ pyJoin (pys "\n") (([] : List ModuleEntry).map cardOfModule)
            ++ dashboardPost
    ∧ _render_card (pys "M") (pys "D") (pys "C") (some [])
        = _render_card (pys "M") (pys "D") (pys "C") none := by
  constructor
  · intro h
    have h1 : render_dashboard (some ([] : List ModuleEntry))
        = dashboardPre ++ pyJoin (pys "\n")
            (default_modules.map cardOfModule) ++ dashboardPost := rfl
    rw [h1] at h
    rw [List.append_assoc, List.append_assoc] at h
    have h2 := List.append_cancel_right (List.append_cancel_left h)
    have h3 : pyJoin (pys "\n") (default_modules.map cardOfModule) ≠ [] := by
      simp only [default_modules, List.map_cons, List.map_nil, pyJoin,
        cardOfModule, render_card_eq]
      simp [cardA]
      intro hfalse
      exact absurd (congrArg List.length hfalse) (by decide)
    exact h3 (by simpa [pyJoin] using h2)
  · rfl

/-- C6 (amended): for every non-empty list of module descriptors the
dashboard HTML is the template around exactly one card per module, in
order; each card contains the module's name, description and command, it
contains the documentation link whenever the documentation field is
provided and non-empty, and when the field is absent or empty the card is
exactly the link-free card. -/
theorem render_dashboard_cards (modules : List ModuleEntry)
    (hne : modules ≠ []) :
    render_dashboard (some modules)
        = dashboardPre ++ pyJoin (pys "\n") (modules.map cardOfModule)
            ++ dashboardPost
    ∧ (modules.map cardOfModule).length = modules.length
    ∧ ∀ m ∈ modules,
        (m.name <:+: cardOfModule m)
        ∧ (m.description <:+: cardOfModule m)
        ∧ (m.command <:+: cardOfModule m)
        ∧ (∀ d, m.documentation = some d → d ≠ [] →
            doc_link_html d <:+: cardOfModule m)
        ∧ ((m.documentation = none ∨ m.documentation = some []) →
            cardOfModule m = cardA ++ m.name ++ cardB ++ m.description
              ++ cardC ++ command_html m.command ++ cardD) := by
  have hE : modules.isEmpty = false := by
    cases h : modules.isEmpty
    · rfl
    · exact absurd (List.isEmpty_iff.mp h) hne
  refine ⟨by simp [render_dashboard, hE], by simp, ?_⟩
  intro m _
  have hcard := render_card_eq m.name m.description m.command m.documentation
  rw [show cardOfModule m
      = _render_card m.name m.description m.command m.documentation
    from rfl]
  refine ⟨?_, ?_, ?_, ?_, ?_⟩
  · exact ⟨cardA, cardB ++ m.description ++ cardC
      ++ (if truthy m.documentation = true
          then doc_link_html (m.documentation.getD []) ++ pys " "
            ++ command_html m.command
          else command_html m.command) ++ cardD,
      by rw [hcard]; simp [List.append_assoc]⟩
  · exact ⟨cardA ++ m.name ++ cardB, cardC
      ++ (if truthy m.documentation = true
          then doc_link_html (m.documentation.getD []) ++ pys " "
            ++ command_html m.command
          else command_html m.command) ++ cardD,
      by rw [hcard]; simp [List.append_assoc]⟩
  · by_cases hd : truthy m.documentation = true
    · rw [hcard, if_pos hd]
      exact ⟨cardA ++ m.name ++ cardB ++ m.description ++ cardC
          ++ (doc_link_html (m.documentation.getD []) ++ pys " "
              ++ pys "<code>"),
        pys "</code>" ++ cardD,
        by simp [command_html, List.append_assoc]⟩
    · rw [hcard, if_neg hd]
      exact ⟨cardA ++ m.name ++ cardB ++ m.description ++ cardC
          ++ pys "<code>", pys "</code>" ++ cardD,
        by simp [command_html, List.append_assoc]⟩
  · intro d hdoc hdne
    have hd : truthy m.documentation = true := by
      rw [hdoc]
      simpa [truthy, List.isEmpty_iff] using hdne
    rw [hcard, if_pos hd, hdoc]
    exact ⟨cardA ++ m.name ++ cardB ++ m.description ++ cardC,
      pys " " ++ command_html m.command ++ cardD,
      by simp [List.append_assoc]⟩
  · intro hdoc
    have hd : truthy m.documentation = false := by
      rcases hdoc with h | h <;> simp [h, truthy]
    rw [hcard, if_neg (by simp [hd])]

/-- C6 witness: the card facts evaluated on a concrete module. -/
theorem render_dashboard_cards_witness :
    ({ name := pys "M", description := pys "D", command := pys "C",
       documentation := some (pys "doc.html") } : ModuleEntry).name
      <:+: cardOfModule
        { name := pys "M", description := pys "D", command := pys "C",
          documentation := some (pys "doc.html") } := by
  obtain ⟨-, -, h3⟩ := render_dashboard_cards
    [{ name := pys "M", description := pys "D", command := pys "C",
       documentation := some (pys "doc.html") }] (by simp)
  exact (h3 _ (by simp)).1

/-- C9: the empty module sequence is replaced by the built-in default
list, both in `render_dashboard` and in `write_dashboard`, so the page
carries one card per default module instead of none. -/
theorem dashboard_empty_defaults :
    render_dashboard (some ([] : List ModuleEntry)) = render_dashboard none
    ∧ write_dashboard (some ([] : List ModuleEntry)) = render_dashboard none
    ∧ render_dashboard none
        = dashboardPre
            ++ pyJoin (pys "\n") (default_modules.map cardOfModule)
            ++ dashboardPost
    ∧ (default_modules.map cardOfModule).length = default_modules.length :=
  ⟨rfl, rfl, rfl, rfl⟩

end PPK
